import Mathlib

/-!
Shallow embedding of the AVSUB subtitle editor (src/WaveformEditor.tsx together
with the App component and the srt utility module shipped in the same source
file).  Times, amplitudes and pixel coordinates are modelled as exact
rationals; machine floats of the source are modelled by exact real (here:
rational) arithmetic, which is also the reading the specification uses
("within float tolerance" claims become exact equalities).  `Math.floor`,
`Math.ceil` and `ToIntegerOrInfinity` truncation of JavaScript are modelled by
`Int.floor`, `Int.ceil` and truncation toward zero on `ℚ`.
-/

namespace AVSub

/-- Subtitle record, from the `Subtitle` interface in `types.ts`:
`{ id: string; start: number; end: number; text: string }` (times in seconds). -/
structure Subtitle where
  id : String
  start : ℚ
  «end» : ℚ
  text : String
deriving DecidableEq, Repr

/-- Drag modes of `stateRef.current.dragMode` in `WaveformEditor.tsx`:
`'none' | 'scrub' | 'move-sub' | 'resize-left' | 'resize-right'`. -/
inductive DragMode where
  | none
  | scrub
  | moveSub
  | resizeLeft
  | resizeRight
deriving DecidableEq, Repr

/-- `xToTime` from `WaveformEditor.tsx` (lines 47-51): convert an X pixel to
media time.  `centerX = width / 2; diffX = x - centerX;
return centerTime + diffX / zoom`. -/
def xToTime (x centerTime width zoom : ℚ) : ℚ :=
  centerTime + (x - width / 2) / zoom

/-- `timeToX` from `WaveformEditor.tsx` (lines 54-58): convert media time to an
X pixel.  `centerX = width / 2; diffTime = time - centerTime;
return centerX + diffTime * zoom`. -/
def timeToX (time centerTime width zoom : ℚ) : ℚ :=
  width / 2 + (time - centerTime) * zoom

/-- Body of the `subtitles.map` callback in `handlePointerMove`
(`WaveformEditor.tsx` lines 340-355).  A subtitle whose id differs from the
drag target is returned as is; otherwise `start`/`end` are recomputed from the
drag-start snapshot `(dragOriginalStart, dragOriginalEnd)` and the time delta
`dt`.  `0.1` and `0.2` of the source are the exact rationals `1/10`, `1/5`. -/
def updateSub (dragMode : DragMode) (dragTargetId : String)
    (dragOriginalStart dragOriginalEnd dt : ℚ) (sub : Subtitle) : Subtitle :=
  if sub.id ≠ dragTargetId then sub
  else
    let p : ℚ × ℚ :=
      match dragMode with
      | DragMode.moveSub =>
          let newStart := max 0 (dragOriginalStart + dt)
          (newStart, max (newStart + 1/10) (dragOriginalEnd + dt))
      | DragMode.resizeLeft =>
          (min (max 0 (dragOriginalStart + dt)) (dragOriginalEnd - 1/5), sub.«end»)
      | DragMode.resizeRight =>
          (sub.start, max (dragOriginalStart + 1/5) (dragOriginalEnd + dt))
      | _ => (sub.start, sub.«end»)
    { sub with start := p.1, «end» := p.2 }

/-- The subtitle-update branch of `handlePointerMove` (`WaveformEditor.tsx`
lines 323-359, the `else if (dragTargetId)` arm): `dx = x - dragStartX;
dt = dx / zoom;` then the whole list is mapped through `updateSub`. -/
def handlePointerMoveSubs (dragMode : DragMode) (dragTargetId : String)
    (dragOriginalStart dragOriginalEnd : ℚ) (x dragStartX zoom : ℚ)
    (subs : List Subtitle) : List Subtitle :=
  let dx := x - dragStartX
  let dt := dx / zoom
  subs.map (updateSub dragMode dragTargetId dragOriginalStart dragOriginalEnd dt)

/-- One drag session acting on a single subtitle.  At pointer-down the source
snapshots `dragOriginalStart = sub.start`, `dragOriginalEnd = sub.end`; every
pointer-move of the session recomputes the subtitle from that snapshot, so
every state the subtitle passes through equals `dragStep` of the snapshot
state at some `dt`.  Consequently the states reachable by arbitrary
interleavings of drag sessions and their intermediate pointer-moves are
exactly the folds of `dragStep`. -/
def dragStep (sub : Subtitle) (p : DragMode × ℚ) : Subtitle :=
  updateSub p.1 sub.id sub.start sub.«end» p.2 sub

/-- Fold of `dragStep` over a list of (mode, time-delta) updates. -/
def applyDrags (sub : Subtitle) (l : List (DragMode × ℚ)) : Subtitle :=
  l.foldl dragStep sub

/-- Hit classification produced by the pointer-down loop. -/
inductive HitType where
  | body
  | left
  | right
deriving DecidableEq, Repr

/-- The hit-testing loop of `handlePointerDown` (`WaveformEditor.tsx` lines
277-297), which walks the subtitle array in reverse order; here it receives
the already-reversed list.  The outer test expands `[start, end]` by the
margin `m = handleHitWidth / zoom`; the resize-handle tests (selected subtitle
only) use `Math.abs(t - edge) < m`; the body test uses the unexpanded
`[start, end]`.  If nothing matches the loop continues with the next
subtitle. -/
def hitTestLoop (selectedSubId : Option String) (t m : ℚ) :
    List Subtitle → Option (String × HitType)
  | [] => Option.none
  | sub :: rest =>
    if sub.start - m ≤ t ∧ t ≤ sub.«end» + m then
      if selectedSubId = some sub.id ∧ |t - sub.start| < m then some (sub.id, HitType.left)
      else if selectedSubId = some sub.id ∧ |t - sub.«end»| < m then some (sub.id, HitType.right)
      else if sub.start ≤ t ∧ t ≤ sub.«end» then some (sub.id, HitType.body)
      else hitTestLoop selectedSubId t m rest
    else hitTestLoop selectedSubId t m rest

/-- Outcome of `handlePointerDown` relevant to hit testing: the drag mode
entered, the drag target, and the selection after the `onSelectSub` calls. -/
structure PointerDownResult where
  dragMode : DragMode
  dragTargetId : Option String
  selection : Option String
deriving DecidableEq, Repr

/-- `handlePointerDown` (`WaveformEditor.tsx` lines 254-321), modelled up to
the state it establishes: `timeAtCursor = xToTime x currentTime width zoom`,
`handleTimeWidth = handleHitWidth / zoom` with `handleHitWidth = 10`; a body
hit enters `move-sub` and selects the hit subtitle, a left/right hit enters
`resize-left`/`resize-right` (the hit subtitle was already selected and is
re-selected), and no hit enters `scrub` and clears the selection. -/
def handlePointerDown (subs : List Subtitle) (selectedSubId : Option String)
    (x centerTime width zoom : ℚ) : PointerDownResult :=
  let timeAtCursor := xToTime x centerTime width zoom
  let handleTimeWidth := 10 / zoom
  match hitTestLoop selectedSubId timeAtCursor handleTimeWidth subs.reverse with
  | some (subId, HitType.body) => ⟨DragMode.moveSub, some subId, some subId⟩
  | some (subId, HitType.left) => ⟨DragMode.resizeLeft, some subId, some subId⟩
  | some (subId, HitType.right) => ⟨DragMode.resizeRight, some subId, some subId⟩
  | Option.none => ⟨DragMode.scrub, Option.none, Option.none⟩

/-- Peak-sampling loop of `draw` (`WaveformEditor.tsx` lines 129-143):
`for (let j = safeStart; j < safeEnd; j += stride) { const val = data[j];
if (val < min) min = val; if (val > max) max = val; hasData = true; }`.
The `fuel` argument makes the recursion structural; it is initialised to
`(safeEnd - safeStart).toNat`, which bounds the number of iterations because
`stride ≥ 1`, so the fuel-exhaustion branch is never the exit path. -/
def scanPeaks (data : List ℚ) (safeEnd stride : ℤ) :
    ℕ → ℤ → ℚ → ℚ → Bool → ℚ × ℚ × Bool
  | 0, _, mn, mx, hasData => (mn, mx, hasData)
  | fuel + 1, j, mn, mx, hasData =>
    if j < safeEnd then
      let val := data.getD j.toNat 0
      scanPeaks data safeEnd stride fuel (j + stride)
        (if val < mn then val else mn) (if mx < val then val else mx) true
    else (mn, mx, hasData)

/-- Per-bucket computation of `draw` (`WaveformEditor.tsx` lines 103-145) with
the screen-space parts factored out: the bounds skip
(`endSample < 0 || startSample >= channelData.length`), the clamped range,
the adaptive stride `max(1, floor((safeEnd - safeStart) / 40))`, the peak
scan starting from `min = 1.0, max = -1.0, hasData = false`, and the final
`hasData && max >= min` gate.  It depends only on the sample data, the
bucket width `step` and the bucket index `i` — not on the viewport. -/
def bucketValue (data : List ℚ) (step i : ℤ) : Option (ℚ × ℚ) :=
  let startSample := i * step
  let endSample := startSample + step
  if endSample < 0 ∨ (data.length : ℤ) ≤ startSample then Option.none
  else
    let safeStart := max 0 startSample
    let safeEnd := min (data.length : ℤ) endSample
    let stride := max 1 (Int.fdiv (safeEnd - safeStart) 40)
    let r := scanPeaks data safeEnd stride (safeEnd - safeStart).toNat safeStart 1 (-1) false
    if r.2.2 ∧ r.1 ≤ r.2.1 then some (r.1, r.2.1) else Option.none

/-- The bucket loop of `draw` (`WaveformEditor.tsx` lines 102-160), iterating
bucket indices from `startBucketIndex - 1` for `fuel` iterations and
collecting `(bucketIndex, min, max)` for every bucket that is actually
rasterised.  Faithful to the source's control flow: the bounds skip
(`continue`), the pixel-snap positions `drawX`/`drawW`, the
`if (drawX > width) break` and `if (drawX + drawW < 0) continue` clippings,
and the `hasData && max >= min` draw gate (both the silence flat-line branch
and the bar branch draw the bucket's min/max pair). -/
def drawLoop (data : List ℚ) (sampleRate : ℕ) (step : ℤ)
    (centerTime width zoom : ℚ) : ℤ → ℕ → List (ℤ × ℚ × ℚ)
  | _, 0 => []
  | i, fuel + 1 =>
    let startSample := i * step
    let endSample := startSample + step
    if endSample < 0 ∨ (data.length : ℤ) ≤ startSample then
      drawLoop data sampleRate step centerTime width zoom (i + 1) fuel
    else
      let timeStart : ℚ := (startSample : ℚ) / (sampleRate : ℚ)
      let timeEnd : ℚ := (endSample : ℚ) / (sampleRate : ℚ)
      let drawX : ℤ := ⌊timeToX timeStart centerTime width zoom⌋
      let drawW : ℤ := max 1 (⌈timeToX timeEnd centerTime width zoom⌉ - drawX)
      if (drawX : ℚ) > width then []
      else if ((drawX + drawW : ℤ) : ℚ) < 0 then
        drawLoop data sampleRate step centerTime width zoom (i + 1) fuel
      else
        match bucketValue data step i with
        | some mm => (i, mm.1, mm.2) ::
            drawLoop data sampleRate step centerTime width zoom (i + 1) fuel
        | Option.none => drawLoop data sampleRate step centerTime width zoom (i + 1) fuel

/-- Waveform pass of `draw` (`WaveformEditor.tsx` lines 86-160):
`samplesPerPixel = sampleRate / zoom; step = ceil(samplesPerPixel)`; the
visible range is mapped to absolute bucket indices
`startBucketIndex = floor(xToTime(0) * sampleRate / step)`,
`endBucketIndex = ceil(xToTime(width) * sampleRate / step)`, and the loop
runs `i` from `startBucketIndex - 1` to `endBucketIndex + 1` inclusive. -/
def drawBuckets (data : List ℚ) (sampleRate : ℕ) (zoom centerTime width : ℚ) :
    List (ℤ × ℚ × ℚ) :=
  let samplesPerPixel := (sampleRate : ℚ) / zoom
  let step : ℤ := ⌈samplesPerPixel⌉
  let startTimeAtLeft := xToTime 0 centerTime width zoom
  let endTimeAtRight := xToTime width centerTime width zoom
  let startBucketIndex : ℤ := ⌊startTimeAtLeft * (sampleRate : ℚ) / (step : ℚ)⌋
  let endBucketIndex : ℤ := ⌈endTimeAtRight * (sampleRate : ℚ) / (step : ℚ)⌉
  drawLoop data sampleRate step centerTime width zoom (startBucketIndex - 1)
    (endBucketIndex + 1 - (startBucketIndex - 1) + 1).toNat

/-- Active-caption lookup of the export compositor, `renderFrame` in the App
component: `subtitlesRef.current.find(s => t >= s.start && t <= s.end)` —
first match in list order on the closed interval. -/
def findActiveSub (subs : List Subtitle) (t : ℚ) : Option Subtitle :=
  subs.find? fun s => decide (s.start ≤ t ∧ t ≤ s.«end»)

/-- Caption text composited by `renderFrame` at timestamp `t`: the text of the
active caption if one exists (`if (activeSub) { ... strokeText/fillText
(activeSub.text) }`), nothing otherwise. -/
def renderFrameCaption (subs : List Subtitle) (t : ℚ) : Option String :=
  (findActiveSub subs t).map Subtitle.text

/-- Codec probing loop of `startRendering`:
`let selectedMimeType = ''; for (const type of mimeTypes)
{ if (MediaRecorder.isTypeSupported(type)) { selectedMimeType = type; break } }`.
The support predicate is a parameter (the capability probe collaborator). -/
def selectMimeType : List String → (String → Bool) → String
  | [], _ => ""
  | t :: ts, isTypeSupported =>
    if isTypeSupported t then t else selectMimeType ts isTypeSupported

/-- The concrete preference list `mimeTypes` of `startRendering`
(most-preferred first). -/
def mimeTypes : List String :=
  ["video/mp4;codecs=avc1.4d002a",
   "video/mp4;codecs=avc1.42E01E",
   "video/mp4",
   "video/webm;codecs=h264",
   "video/webm;codecs=vp9",
   "video/webm"]

/-- The export status state of the App component:
`'idle' | 'rendering' | 'completed'`. -/
inductive RenderStatus where
  | idle
  | rendering
  | completed
deriving DecidableEq, Repr

/-- Net outcome of the codec-negotiation stage of `startRendering`: the status
is set to `rendering`, then if no list entry is supported the user is alerted
(`alert(...)`), the status is reset to `idle` and the function returns before
any recorder is created; otherwise rendering proceeds with the selected
type.  The second component is the selected mime type, `none` standing for
the rejected-export path. -/
def startRenderingCodecOutcome (types : List String) (supported : String → Bool) :
    RenderStatus × Option String :=
  let selectedMimeType := selectMimeType types supported
  if selectedMimeType = "" then (RenderStatus.idle, Option.none)
  else (RenderStatus.rendering, some selectedMimeType)

/-- Truncation toward zero on ℚ, the `ToIntegerOrInfinity` conversion JavaScript
applies to the argument of `Date.prototype.setMilliseconds`. -/
def jsTrunc (q : ℚ) : ℤ :=
  if q < 0 then ⌈q⌉ else ⌊q⌋

/-- Left-pad the decimal representation of `n` with zeros to width `w`,
matching the fixed-width fields of `Date.prototype.toISOString`. -/
def padZero (w : ℕ) (n : ℕ) : String :=
  let s := toString n
  String.mk (List.replicate (w - s.length) '0') ++ s

/-- `formatTime` from the srt utility module:
`const date = new Date(0); date.setMilliseconds(seconds * 1000);
return date.toISOString().substring(11, 23).replace('.', ',');`.
`setMilliseconds` truncates its argument toward zero, and
`toISOString().substring(11, 23)` is the hour-of-day clock
`HH:MM:SS.mmm` of the resulting instant, i.e. the fields of
`ms mod 86400000` (Euclidean remainder, which also reproduces the day
rollover the `Date` arithmetic performs for negative inputs). -/
def formatTime (seconds : ℚ) : String :=
  let ms : ℤ := jsTrunc (seconds * 1000)
  let d : ℕ := (ms % 86400000).toNat
  padZero 2 (d / 3600000) ++ ":" ++ padZero 2 (d / 60000 % 60) ++ ":" ++
    padZero 2 (d / 1000 % 60) ++ "," ++ padZero 3 (d % 1000)

/-- Stable insertion of a subtitle into a list sorted by `start`: the new
element goes after every element whose `start` is `≤` its own.  Together with
`sortByStart` this models the stable `Array.prototype.sort` with comparator
`(a, b) => a.start - b.start` used by `generateSRT`. -/
def insertByStart (x : Subtitle) : List Subtitle → List Subtitle
  | [] => [x]
  | y :: ys => if y.start ≤ x.start then y :: insertByStart x ys else x :: y :: ys

/-- Stable sort by `start` (model of `subtitles.sort((a, b) => a.start - b.start)`;
`Array.prototype.sort` is stable). -/
def sortByStart (subs : List Subtitle) : List Subtitle :=
  subs.foldl (fun acc x => insertByStart x acc) []

/-- `generateSRT` from the srt utility module: sort by `start`, then
`` `${index + 1}\n${formatTime(sub.start)} --> ${formatTime(sub.end)}\n${sub.text}\n` ``
per subtitle, joined with `'\n'`. -/
def generateSRT (subtitles : List Subtitle) : String :=
  String.intercalate "\n"
    ((sortByStart subtitles).enum.map fun p =>
      toString (p.1 + 1) ++ "\n" ++ formatTime p.2.start ++ " --> " ++
        formatTime p.2.«end» ++ "\n" ++ p.2.text ++ "\n")

/-- C1: for every move drag with snapshot `(originalStart, originalEnd)` taken
at pointer-down and pixel delta `d` at zoom `z` (so `dt = d / z`), the
pointer-move handler sets `newStart = max(0, originalStart + dt)` and
`newEnd = max(newStart + 0.1, originalEnd + dt)`; in particular a caption
`{start: 10, end: 12}` dragged by `+100` pixels at zoom `50` px/s becomes
`{start: 12, end: 14}`. -/
theorem move_drag_update :
    (∀ (tid : String) (originalStart originalEnd d z s e : ℚ) (txt : String),
      updateSub DragMode.moveSub tid originalStart originalEnd (d / z) ⟨tid, s, e, txt⟩ =
        ⟨tid, max 0 (originalStart + d / z),
          max (max 0 (originalStart + d / z) + 1/10) (originalEnd + d / z), txt⟩) ∧
    (∀ x₀ : ℚ, handlePointerMoveSubs DragMode.moveSub "c" 10 12 (x₀ + 100) x₀ 50
        [⟨"c", 10, 12, "hi"⟩] = [⟨"c", 12, 14, "hi"⟩]) := by
  constructor
  · intro tid originalStart originalEnd d z s e txt
    simp [updateSub]
  · intro x₀
    have h : x₀ + 100 - x₀ = (100 : ℚ) := by ring
    simp only [handlePointerMoveSubs, h, List.map]
    norm_num [updateSub]

/-- C2: during a resize drag the moved edge is clamped `0.2` s away from the
fixed opposite edge, both computed from the drag-start snapshot:
`resize-left` yields `newStart = min(max(0, originalStart + dt), originalEnd - 0.2)`
and `resize-right` yields `newEnd = max(originalStart + 0.2, originalEnd + dt)`;
in particular dragging the right handle of `{start: 10, end: 12}` from the
pixel of `t = 12` to the pixel of `t = 11.9` yields `end = 11.9` (accepted,
not clamped to `10.2`). -/
theorem resize_drag_update :
    (∀ (tid : String) (originalStart originalEnd dt s e : ℚ) (txt : String),
      updateSub DragMode.resizeLeft tid originalStart originalEnd dt ⟨tid, s, e, txt⟩ =
        ⟨tid, min (max 0 (originalStart + dt)) (originalEnd - 1/5), e, txt⟩) ∧
    (∀ (tid : String) (originalStart originalEnd dt s e : ℚ) (txt : String),
      updateSub DragMode.resizeRight tid originalStart originalEnd dt ⟨tid, s, e, txt⟩ =
        ⟨tid, s, max (originalStart + 1/5) (originalEnd + dt), txt⟩) ∧
    (∀ centerTime width : ℚ,
      handlePointerMoveSubs DragMode.resizeRight "c" 10 12
        (timeToX (119/10) centerTime width 50) (timeToX 12 centerTime width 50) 50
        [⟨"c", 10, 12, "hi"⟩] = [⟨"c", 10, 119/10, "hi"⟩]) := by
  refine ⟨?_, ?_, ?_⟩
  · intro tid originalStart originalEnd dt s e txt
    simp [updateSub]
  · intro tid originalStart originalEnd dt s e txt
    simp [updateSub]
  · intro centerTime width
    have h : timeToX (119/10) centerTime width 50 - timeToX 12 centerTime width 50
        = -(5 : ℚ) := by
      unfold timeToX; ring
    simp only [handlePointerMoveSubs, h, List.map]
    norm_num [updateSub]

/-- C5: for every time `t` and every viewport with `zoom > 0`,
`xToTime (timeToX t vp) vp = t` — the time/pixel mappers are exact inverses. -/
theorem mapper_roundtrip (t centerTime width zoom : ℚ) (hz : 0 < zoom) :
    xToTime (timeToX t centerTime width zoom) centerTime width zoom = t := by
  unfold xToTime timeToX
  field_simp

/-- Witness for `mapper_roundtrip` at `t = 7`, `centerTime = 3`,
`width = 1280`, `zoom = 50`. -/
theorem mapper_roundtrip_witness :
    (0 : ℚ) < 50 ∧ xToTime (timeToX 7 3 1280 50) 3 1280 50 = 7 :=
  ⟨by norm_num, mapper_roundtrip 7 3 1280 50 (by norm_num)⟩

/-- C9: `generateSRT` formats each caption as a 1-based sequential index line,
a `start --> end` line with zero-padded `HH:MM:SS,mmm` timestamps and the
caption text, entries separated by blank lines; in particular a single caption
`{start: 1.5, end: 3.25, text: "Hello"}` yields
`"1\n00:00:01,500 --> 00:00:03,250\nHello\n"`, and a two-caption list shows
the sequential indices and the blank-line separator. -/
theorem generateSRT_format :
    generateSRT [⟨"s1", 3/2, 13/4, "Hello"⟩] =
      "1\n00:00:01,500 --> 00:00:03,250\nHello\n" ∧
    generateSRT [⟨"a", 1, 2, "A"⟩, ⟨"b", 3, 4, "B"⟩] =
      "1\n00:00:01,000 --> 00:00:02,000\nA\n\n2\n00:00:03,000 --> 00:00:04,000\nB\n" := by
  constructor <;> with_unfolding_all decide

/-- C10: a move/resize pointer-move update changes only the `start` and `end`
fields of the drag-target caption: captions with a different id are returned
unchanged, the target's `id` and `text` are preserved, and the handler is
exactly a map of the per-caption update over the list. -/
theorem drag_frame_effect (mode : DragMode) (tid : String)
    (originalStart originalEnd dt : ℚ) (sub : Subtitle) :
    (sub.id ≠ tid → updateSub mode tid originalStart originalEnd dt sub = sub) ∧
    (updateSub mode tid originalStart originalEnd dt sub).id = sub.id ∧
    (updateSub mode tid originalStart originalEnd dt sub).text = sub.text ∧
    (∀ (x dragStartX zoom : ℚ) (subs : List Subtitle),
      handlePointerMoveSubs mode tid originalStart originalEnd x dragStartX zoom subs =
        subs.map (updateSub mode tid originalStart originalEnd ((x - dragStartX) / zoom))) := by
  refine ⟨?_, ?_, ?_, ?_⟩
  · intro h
    simp [updateSub, h]
  · by_cases h : sub.id ≠ tid <;> simp [updateSub, h]
  · by_cases h : sub.id ≠ tid <;> simp [updateSub, h]
  · intro x dragStartX zoom subs
    rfl

/-- Witness for `drag_frame_effect`: a non-target caption is untouched and the
target keeps its id and text. -/
theorem drag_frame_effect_witness :
    updateSub DragMode.moveSub "b" 0 1 2 ⟨"a", 5, 6, "t"⟩ = ⟨"a", 5, 6, "t"⟩ ∧
    (updateSub DragMode.moveSub "a" 0 1 2 ⟨"a", 5, 6, "t"⟩).id = "a" ∧
    (updateSub DragMode.moveSub "a" 0 1 2 ⟨"a", 5, 6, "t"⟩).text = "t" :=
  ⟨(drag_frame_effect DragMode.moveSub "b" 0 1 2 ⟨"a", 5, 6, "t"⟩).1 (by decide),
   (drag_frame_effect DragMode.moveSub "a" 0 1 2 ⟨"a", 5, 6, "t"⟩).2.1,
   (drag_frame_effect DragMode.moveSub "a" 0 1 2 ⟨"a", 5, 6, "t"⟩).2.2.1⟩

/-- Inductive invariant of the drag-update system: `start ≥ -0.1`,
`end - start ≥ 0.1` and `end ≥ 0.1`. -/
def DragInv (sub : Subtitle) : Prop :=
  -(1/10) ≤ sub.start ∧ sub.start + 1/10 ≤ sub.«end» ∧ 1/10 ≤ sub.«end»

theorem dragStep_moveSub (sub : Subtitle) (dt : ℚ) :
    dragStep sub (DragMode.moveSub, dt) =
      { sub with start := max 0 (sub.start + dt),
                 «end» := max (max 0 (sub.start + dt) + 1/10) (sub.«end» + dt) } := by
  simp [dragStep, updateSub]

theorem dragStep_resizeLeft (sub : Subtitle) (dt : ℚ) :
    dragStep sub (DragMode.resizeLeft, dt) =
      { sub with start := min (max 0 (sub.start + dt)) (sub.«end» - 1/5) } := by
  simp [dragStep, updateSub]

theorem dragStep_resizeRight (sub : Subtitle) (dt : ℚ) :
    dragStep sub (DragMode.resizeRight, dt) =
      { sub with «end» := max (sub.start + 1/5) (sub.«end» + dt) } := by
  simp [dragStep, updateSub]

theorem dragStep_scrub (sub : Subtitle) (dt : ℚ) :
    dragStep sub (DragMode.scrub, dt) = sub := by
  simp [dragStep, updateSub]

theorem dragStep_none (sub : Subtitle) (dt : ℚ) :
    dragStep sub (DragMode.none, dt) = sub := by
  simp [dragStep, updateSub]

theorem dragStep_inv (sub : Subtitle) (p : DragMode × ℚ) (h : DragInv sub) :
    DragInv (dragStep sub p) := by
  obtain ⟨h1, h2, h3⟩ := h
  obtain ⟨m, dt⟩ := p
  cases m with
  | moveSub =>
      rw [dragStep_moveSub]
      refine ⟨?_, ?_, ?_⟩
      · have := le_max_left (0 : ℚ) (sub.start + dt); dsimp; linarith
      · dsimp; exact le_max_left _ _
      · have := le_max_left (max 0 (sub.start + dt) + 1/10) (sub.«end» + dt)
        have := le_max_left (0 : ℚ) (sub.start + dt)
        dsimp; linarith
  | resizeLeft =>
      rw [dragStep_resizeLeft]
      refine ⟨?_, ?_, ?_⟩
      · have hmax := le_max_left (0 : ℚ) (sub.start + dt)
        dsimp
        rw [le_min_iff]
        constructor <;> linarith
      · have := min_le_right (max 0 (sub.start + dt)) (sub.«end» - 1/5)
        dsimp; linarith
      · dsimp; linarith
  | resizeRight =>
      rw [dragStep_resizeRight]
      refine ⟨?_, ?_, ?_⟩
      · dsimp; linarith
      · have := le_max_left (sub.start + 1/5) (sub.«end» + dt)
        dsimp; linarith
      · have := le_max_left (sub.start + 1/5) (sub.«end» + dt)
        dsimp; linarith
  | scrub =>
      rw [dragStep_scrub]
      exact ⟨h1, h2, h3⟩
  | none =>
      rw [dragStep_none]
      exact ⟨h1, h2, h3⟩

theorem applyDrags_inv (sub : Subtitle) (l : List (DragMode × ℚ)) (h : DragInv sub) :
    DragInv (applyDrags sub l) := by
  induction l generalizing sub with
  | nil => exact h
  | cons p rest ih => exact ih (dragStep sub p) (dragStep_inv sub p h)

/-- Counterexample to C3 as stated: the caption `{start: 0, end: 0.1}` has
`start ≥ 0` (and even `end - start ≥ 0.1`), yet a single `resize-left`
pointer-move update with `dt = 0` produces `start = min(max(0, 0), 0.1 - 0.2)
= -0.1 < 0`, violating the claimed `start ≥ 0` invariant. -/
theorem drag_invariant_counterexample :
    (0 : ℚ) ≤ (Subtitle.mk "c" 0 (1/10) "hi").start ∧
    (Subtitle.mk "c" 0 (1/10) "hi").start + 1/10 ≤ (Subtitle.mk "c" 0 (1/10) "hi").«end» ∧
    ¬ (0 : ℚ) ≤ (applyDrags ⟨"c", 0, 1/10, "hi"⟩ [(DragMode.resizeLeft, 0)]).start := by
  refine ⟨by norm_num, by norm_num, ?_⟩
  have : applyDrags ⟨"c", 0, 1/10, "hi"⟩ [(DragMode.resizeLeft, 0)] =
      ⟨"c", -(1/10), 1/10, "hi"⟩ := by
    with_unfolding_all decide
  rw [this]
  norm_num

/-- C3 amended: starting from any caption with `start ≥ 0` and
`end - start ≥ 0.1`, every nonempty sequence of move/resize pointer-move
updates yields `end - start ≥ 0.1` (and `end - start ≥ 0.2` when the last
update is a resize), and `start ≥ -0.1`; `start ≥ 0` itself holds after a
final move update but can fail after a resize-left on a caption whose end is
below `0.2` (see the counterexample above). -/
theorem drag_invariant_amended (sub : Subtitle) (l : List (DragMode × ℚ))
    (hs : 0 ≤ sub.start) (hd : sub.start + 1/10 ≤ sub.«end») (hne : l ≠ [])
    (hmodes : ∀ p ∈ l, p.1 = DragMode.moveSub ∨ p.1 = DragMode.resizeLeft ∨
      p.1 = DragMode.resizeRight) :
    -(1/10) ≤ (applyDrags sub l).start ∧
    (applyDrags sub l).start + 1/10 ≤ (applyDrags sub l).«end» ∧
    ((l.getLast hne).1 ≠ DragMode.moveSub →
      (applyDrags sub l).start + 1/5 ≤ (applyDrags sub l).«end») ∧
    ((l.getLast hne).1 = DragMode.moveSub → 0 ≤ (applyDrags sub l).start) := by
  have hinv : DragInv sub := ⟨by linarith, hd, by linarith⟩
  rcases List.eq_nil_or_concat l with rfl | ⟨l', p, rfl⟩
  · exact absurd rfl hne
  · have hmid : DragInv (applyDrags sub l') := applyDrags_inv sub l' hinv
    have happ : applyDrags sub (l'.concat p) = dragStep (applyDrags sub l') p := by
      simp [applyDrags, List.concat_eq_append, List.foldl_append]
    have hlast : (l'.concat p).getLast hne = p := by
      simp [List.getLast_concat]
    set mid := applyDrags sub l' with hmiddef
    obtain ⟨hm1, hm2, hm3⟩ := hmid
    have hp := hmodes p (by simp)
    obtain ⟨m, dt⟩ := p
    rcases hp with hp | hp | hp <;> subst hp <;> rw [happ, hlast]
    · rw [dragStep_moveSub]
      have hmax := le_max_left (0 : ℚ) (mid.start + dt)
      have hmax2 := le_max_left (max 0 (mid.start + dt) + 1/10) (mid.«end» + dt)
      refine ⟨by dsimp; linarith, by dsimp; linarith, ?_, fun _ => by dsimp; linarith⟩
      intro hne'
      exact absurd rfl hne'
    · rw [dragStep_resizeLeft]
      have hmin := min_le_right (max 0 (mid.start + dt)) (mid.«end» - 1/5)
      have hmax := le_max_left (0 : ℚ) (mid.start + dt)
      refine ⟨?_, by dsimp; linarith, fun _ => by dsimp; linarith, ?_⟩
      · dsimp; rw [le_min_iff]; constructor <;> linarith
      · intro hcon; exact absurd hcon (by simp)
    · rw [dragStep_resizeRight]
      have hmax := le_max_left (mid.start + 1/5) (mid.«end» + dt)
      refine ⟨by dsimp; linarith, by dsimp; linarith, fun _ => by dsimp; linarith, ?_⟩
      intro hcon; exact absurd hcon (by simp)

/-- Witness for `drag_invariant_amended`: the caption `{start: 10, end: 12}`
after one `resize-right` update with `dt = 1`. -/
theorem drag_invariant_amended_witness :
    (0 : ℚ) ≤ (Subtitle.mk "c" 10 12 "hi").start ∧
    (Subtitle.mk "c" 10 12 "hi").start + 1/10 ≤ (Subtitle.mk "c" 10 12 "hi").«end» ∧
    (-(1/10) ≤ (applyDrags ⟨"c", 10, 12, "hi"⟩ [(DragMode.resizeRight, 1)]).start ∧
      (applyDrags ⟨"c", 10, 12, "hi"⟩ [(DragMode.resizeRight, 1)]).start + 1/10 ≤
        (applyDrags ⟨"c", 10, 12, "hi"⟩ [(DragMode.resizeRight, 1)]).«end» ∧
      (([(DragMode.resizeRight, (1:ℚ))].getLast (by simp)).1 ≠ DragMode.moveSub →
        (applyDrags ⟨"c", 10, 12, "hi"⟩ [(DragMode.resizeRight, 1)]).start + 1/5 ≤
          (applyDrags ⟨"c", 10, 12, "hi"⟩ [(DragMode.resizeRight, 1)]).«end») ∧
      (([(DragMode.resizeRight, (1:ℚ))].getLast (by simp)).1 = DragMode.moveSub →
        0 ≤ (applyDrags ⟨"c", 10, 12, "hi"⟩ [(DragMode.resizeRight, 1)]).start)) :=
  ⟨by norm_num, by norm_num,
    drag_invariant_amended ⟨"c", 10, 12, "hi"⟩ [(DragMode.resizeRight, 1)]
      (by norm_num) (by norm_num) (by simp)
      (by intro p hp; simp at hp; subst hp; right; right; rfl)⟩

/-- Predicate for the unexpanded body test of the pointer-down loop. -/
def containsTime (t : ℚ) (s : Subtitle) : Bool :=
  decide (s.start ≤ t ∧ t ≤ s.«end»)

/-- With a nonnegative margin, the hit-test loop either reports a resize-handle
hit, or behaves as first-match search over the unexpanded `[start, end]`
intervals. -/
theorem hitTestLoop_cases (sel : Option String) (t m : ℚ) (hm : 0 ≤ m) :
    ∀ l : List Subtitle,
      (∃ subId, hitTestLoop sel t m l = some (subId, HitType.left) ∨
        hitTestLoop sel t m l = some (subId, HitType.right)) ∨
      hitTestLoop sel t m l =
        (l.find? (containsTime t)).map (fun s => (s.id, HitType.body)) := by
  intro l
  induction l with
  | nil => right; rfl
  | cons sub rest ih =>
    have hstep : hitTestLoop sel t m (sub :: rest) =
      if sub.start - m ≤ t ∧ t ≤ sub.«end» + m then
        if sel = some sub.id ∧ |t - sub.start| < m then some (sub.id, HitType.left)
        else if sel = some sub.id ∧ |t - sub.«end»| < m then some (sub.id, HitType.right)
        else if sub.start ≤ t ∧ t ≤ sub.«end» then some (sub.id, HitType.body)
        else hitTestLoop sel t m rest
      else hitTestLoop sel t m rest := rfl
    by_cases houter : sub.start - m ≤ t ∧ t ≤ sub.«end» + m
    · by_cases hleft : sel = some sub.id ∧ |t - sub.start| < m
      · left
        exact ⟨sub.id, Or.inl (by rw [hstep, if_pos houter, if_pos hleft])⟩
      · by_cases hright : sel = some sub.id ∧ |t - sub.«end»| < m
        · left
          refine ⟨sub.id, Or.inr ?_⟩
          rw [hstep, if_pos houter, if_neg hleft, if_pos hright]
        · by_cases hbody : sub.start ≤ t ∧ t ≤ sub.«end»
          · right
            rw [hstep, if_pos houter, if_neg hleft, if_neg hright, if_pos hbody,
              List.find?_cons_of_pos _ (by simpa [containsTime] using hbody)]
            rfl
          · have hloop : hitTestLoop sel t m (sub :: rest) = hitTestLoop sel t m rest := by
              rw [hstep, if_pos houter, if_neg hleft, if_neg hright, if_neg hbody]
            have hfind : List.find? (containsTime t) (sub :: rest) =
                List.find? (containsTime t) rest :=
              List.find?_cons_of_neg _ (by simpa [containsTime] using hbody)
            rw [hloop, hfind]
            exact ih
    · have hbody : ¬ (sub.start ≤ t ∧ t ≤ sub.«end») := by
        intro hc
        exact houter ⟨by linarith [hc.1], by linarith [hc.2]⟩
      have hloop : hitTestLoop sel t m (sub :: rest) = hitTestLoop sel t m rest := by
        rw [hstep, if_neg houter]
      have hfind : List.find? (containsTime t) (sub :: rest) =
          List.find? (containsTime t) rest :=
        List.find?_cons_of_neg _ (by simpa [containsTime] using hbody)
      rw [hloop, hfind]
      exact ih

/-- Counterexample to C6 as stated: one caption `{start: 10, end: 12}`, nothing
selected, zoom `50` (margin `10 / 50 = 0.2`), pointer at `t = 9.9`.  The
pointer time lies within `[start, end]` expanded by the margin
(`[9.8, 12.2]`), yet pointer-down enters `scrub` with the selection cleared
instead of entering `move` on that caption: the body test of the source uses
the unexpanded interval. -/
theorem pointer_down_expanded_counterexample :
    ((10 : ℚ) - 10 / 50 ≤ xToTime 495 0 0 50 ∧
      xToTime 495 0 0 50 ≤ 12 + 10 / 50) ∧
    handlePointerDown [⟨"a", 10, 12, "x"⟩] Option.none 495 0 0 50 =
      ⟨DragMode.scrub, Option.none, Option.none⟩ := by
  constructor
  · constructor <;> · show (_ : ℚ) ≤ _; with_unfolding_all decide
  · with_unfolding_all decide

/-- C6 amended: on pointer-down, when the hit test does not report a
resize-handle hit, a pointer whose time lies within some caption's
unexpanded `[start, end]` enters `move` mode on the first such caption in
reverse order and selects it, and a pointer inside no caption's `[start, end]`
enters `scrub` and clears the selection.  The expansion by
`handlePixelWidth / zoom` applies to the handle tests (and an outer
prefilter) only, not to the body test (see the counterexample above). -/
theorem pointer_down_hit_amended (subs : List Subtitle) (sel : Option String)
    (x centerTime width zoom : ℚ) (hz : 0 < zoom)
    (hnr : (handlePointerDown subs sel x centerTime width zoom).dragMode ≠
        DragMode.resizeLeft ∧
      (handlePointerDown subs sel x centerTime width zoom).dragMode ≠
        DragMode.resizeRight) :
    (∀ s : Subtitle,
      subs.reverse.find? (containsTime (xToTime x centerTime width zoom)) = some s →
        handlePointerDown subs sel x centerTime width zoom =
          ⟨DragMode.moveSub, some s.id, some s.id⟩) ∧
    (subs.reverse.find? (containsTime (xToTime x centerTime width zoom)) = Option.none →
      handlePointerDown subs sel x centerTime width zoom =
        ⟨DragMode.scrub, Option.none, Option.none⟩) := by
  have hm : (0 : ℚ) ≤ 10 / zoom := by positivity
  rcases hitTestLoop_cases sel (xToTime x centerTime width zoom) (10 / zoom) hm
      subs.reverse with ⟨subId, hcase | hcase⟩ | hcase
  · exfalso
    apply hnr.1
    simp [handlePointerDown, hcase]
  · exfalso
    apply hnr.2
    simp [handlePointerDown, hcase]
  · constructor
    · intro s hfind
      rw [hfind] at hcase
      simp [handlePointerDown, hcase]
    · intro hfind
      rw [hfind] at hcase
      simp [handlePointerDown, hcase]

/-- Witness for `pointer_down_hit_amended`: one caption `{start: 10, end: 12}`,
pointer at `t = 11`, zoom `50`; pointer-down enters `move` on it and selects
it. -/
theorem pointer_down_hit_amended_witness :
    (0 : ℚ) < 50 ∧
    ((handlePointerDown [⟨"a", 10, 12, "x"⟩] Option.none 550 0 0 50).dragMode ≠
        DragMode.resizeLeft ∧
      (handlePointerDown [⟨"a", 10, 12, "x"⟩] Option.none 550 0 0 50).dragMode ≠
        DragMode.resizeRight) ∧
    [(⟨"a", 10, 12, "x"⟩ : Subtitle)].reverse.find? (containsTime (xToTime 550 0 0 50)) =
      some ⟨"a", 10, 12, "x"⟩ ∧
    handlePointerDown [⟨"a", 10, 12, "x"⟩] Option.none 550 0 0 50 =
      ⟨DragMode.moveSub, some "a", some "a"⟩ := by
  refine ⟨by norm_num, ⟨by with_unfolding_all decide, by with_unfolding_all decide⟩,
    by with_unfolding_all decide, ?_⟩
  exact (pointer_down_hit_amended [⟨"a", 10, 12, "x"⟩] Option.none 550 0 0 50
    (by norm_num)
    ⟨by with_unfolding_all decide, by with_unfolding_all decide⟩).1
    ⟨"a", 10, 12, "x"⟩ (by with_unfolding_all decide)

/-- First-match characterisation of `List.find?`. -/
theorem find?_first_match {α : Type} (p : α → Bool) :
    ∀ (l : List α) (a : α), l.find? p = some a ↔
      ∃ l₁ l₂, l = l₁ ++ a :: l₂ ∧ p a = true ∧ ∀ u ∈ l₁, p u = false := by
  intro l
  induction l with
  | nil => intro a; simp
  | cons b rest ih =>
    intro a
    constructor
    · intro h
      by_cases hb : p b
      · rw [List.find?_cons_of_pos _ hb] at h
        obtain rfl : b = a := by injection h
        exact ⟨[], rest, rfl, hb, by simp⟩
      · rw [List.find?_cons_of_neg _ hb] at h
        obtain ⟨l₁, l₂, rfl, hpa, hl₁⟩ := (ih a).1 h
        refine ⟨b :: l₁, l₂, rfl, hpa, ?_⟩
        intro u hu
        rcases List.mem_cons.1 hu with rfl | hu
        · exact Bool.of_not_eq_true hb
        · exact hl₁ u hu
    · rintro ⟨l₁, l₂, hsplit, hpa, hl₁⟩
      cases l₁ with
      | nil =>
        simp only [List.nil_append] at hsplit
        obtain ⟨rfl, rfl⟩ := List.cons_eq_cons.mp hsplit
        exact List.find?_cons_of_pos _ hpa
      | cons c l₁' =>
        simp only [List.cons_append] at hsplit
        obtain ⟨rfl, rfl⟩ := List.cons_eq_cons.mp hsplit
        have hpb : p b = false := hl₁ b (by simp)
        rw [List.find?_cons_of_neg _ (by simp [hpb])]
        exact (ih a).2 ⟨l₁', l₂, rfl, hpa, fun u hu => hl₁ u (by simp [hu])⟩

/-- C7: the export compositor draws caption text at timestamp `t` if and only
if some caption's closed interval `[start, end]` contains `t`; when a caption
is drawn it is the first caption in list order whose interval contains `t`;
and for the single caption `{start: 2, end: 4}` text is drawn exactly on the
frames with `2 ≤ t ≤ 4`. -/
theorem export_active_caption :
    (∀ (subs : List Subtitle) (t : ℚ),
      (renderFrameCaption subs t).isSome ↔ ∃ s ∈ subs, s.start ≤ t ∧ t ≤ s.«end») ∧
    (∀ (subs : List Subtitle) (t : ℚ) (s : Subtitle),
      findActiveSub subs t = some s →
        (s.start ≤ t ∧ t ≤ s.«end») ∧
        ∃ l₁ l₂, subs = l₁ ++ s :: l₂ ∧
          ∀ u ∈ l₁, ¬ (u.start ≤ t ∧ t ≤ u.«end»)) ∧
    (∀ t : ℚ,
      (renderFrameCaption [⟨"c", 2, 4, "hi"⟩] t).isSome ↔ 2 ≤ t ∧ t ≤ 4) := by
  have hiff : ∀ (subs : List Subtitle) (t : ℚ),
      (renderFrameCaption subs t).isSome ↔ ∃ s ∈ subs, s.start ≤ t ∧ t ≤ s.«end» := by
    intro subs t
    rw [renderFrameCaption, Option.isSome_map']
    rw [findActiveSub, List.find?_isSome]
    simp
  refine ⟨hiff, ?_, ?_⟩
  · intro subs t s h
    rw [findActiveSub] at h
    obtain ⟨l₁, l₂, rfl, hpa, hl₁⟩ :=
      (find?_first_match (fun s => decide (s.start ≤ t ∧ t ≤ s.«end»)) subs s).1 h
    refine ⟨by simpa using hpa, l₁, l₂, rfl, ?_⟩
    intro u hu
    simpa using hl₁ u hu
  · intro t
    rw [hiff]
    simp

/-- Witness for `export_active_caption`: at `t = 3` the single caption
`{start: 2, end: 4}` is the drawn caption, it is a first match, and its
interval contains `3`. -/
theorem export_active_caption_witness :
    ((⟨"c", 2, 4, "hi"⟩ : Subtitle).start ≤ 3 ∧ (3:ℚ) ≤ (⟨"c", 2, 4, "hi"⟩ : Subtitle).«end») ∧
    ∃ l₁ l₂, [(⟨"c", 2, 4, "hi"⟩ : Subtitle)] = l₁ ++ (⟨"c", 2, 4, "hi"⟩ : Subtitle) :: l₂ ∧
      ∀ u ∈ l₁, ¬ (u.start ≤ (3:ℚ) ∧ (3:ℚ) ≤ u.«end») :=
  export_active_caption.2.1 [⟨"c", 2, 4, "hi"⟩] 3 ⟨"c", 2, 4, "hi"⟩
    (by with_unfolding_all decide)

theorem selectMimeType_of_all_unsupported (supported : String → Bool) :
    ∀ types : List String, (∀ t ∈ types, supported t = false) →
      selectMimeType types supported = "" := by
  intro types
  induction types with
  | nil => intro _; rfl
  | cons t ts ih =>
    intro h
    have ht : supported t = false := h t (by simp)
    rw [selectMimeType, if_neg (by simp [ht])]
    exact ih fun u hu => h u (by simp [hu])

theorem selectMimeType_first (supported : String → Bool) :
    ∀ (l₁ : List String) (t : String) (l₂ : List String), supported t = true →
      (∀ u ∈ l₁, supported u = false) →
      selectMimeType (l₁ ++ t :: l₂) supported = t := by
  intro l₁
  induction l₁ with
  | nil =>
    intro t l₂ ht _
    rw [List.nil_append, selectMimeType, if_pos ht]
  | cons u l₁' ih =>
    intro t l₂ ht hl
    have hu : supported u = false := hl u (by simp)
    rw [List.cons_append, selectMimeType, if_neg (by simp [hu])]
    exact ih t l₂ ht fun v hv => hl v (by simp [hv])

/-- C8: for every ordered codec/container preference list (whose entries are
nonempty strings, as in the source list) and every supported-predicate, the
export controller selects the first entry for which the predicate holds; if
no entry is supported the unsupported-capability fault is reported and export
does not proceed — the status is left `idle` and no mime type is selected. -/
theorem codec_negotiation_first_match (types : List String) (supported : String → Bool)
    (hne : ∀ t ∈ types, t ≠ "") :
    (∀ (l₁ : List String) (t : String) (l₂ : List String),
      types = l₁ ++ t :: l₂ → supported t = true → (∀ u ∈ l₁, supported u = false) →
        startRenderingCodecOutcome types supported = (RenderStatus.rendering, some t)) ∧
    ((∀ t ∈ types, supported t = false) →
      startRenderingCodecOutcome types supported = (RenderStatus.idle, Option.none)) := by
  constructor
  · intro l₁ t l₂ hsplit ht hl
    have hsel : selectMimeType types supported = t := by
      rw [hsplit]; exact selectMimeType_first supported l₁ t l₂ ht hl
    have htne : t ≠ "" := hne t (by rw [hsplit]; simp)
    rw [startRenderingCodecOutcome, hsel, if_neg htne]
  · intro h
    have hsel : selectMimeType types supported = "" :=
      selectMimeType_of_all_unsupported supported types h
    rw [startRenderingCodecOutcome, hsel, if_pos rfl]

/-- Witness for `codec_negotiation_first_match` on the source's own preference
list: with only plain `video/mp4` supported, the first two entries are
rejected and `video/mp4` is selected. -/
theorem codec_negotiation_first_match_witness :
    startRenderingCodecOutcome mimeTypes (fun s => s == "video/mp4") =
      (RenderStatus.rendering, some "video/mp4") :=
  (codec_negotiation_first_match mimeTypes (fun s => s == "video/mp4") (by decide)).1
    ["video/mp4;codecs=avc1.4d002a", "video/mp4;codecs=avc1.42E01E"] "video/mp4"
    ["video/webm;codecs=h264", "video/webm;codecs=vp9", "video/webm"]
    (by rfl) (by rfl) (by decide)

theorem mem_drawLoop (data : List ℚ) (sampleRate : ℕ) (step : ℤ)
    (centerTime width zoom : ℚ) :
    ∀ (fuel : ℕ) (i₀ i : ℤ) (mn mx : ℚ),
      (i, mn, mx) ∈ drawLoop data sampleRate step centerTime width zoom i₀ fuel →
        bucketValue data step i = some (mn, mx) := by
  intro fuel
  induction fuel with
  | zero =>
    intro i₀ i mn mx h
    simp [drawLoop] at h
  | succ fuel ih =>
    intro i₀ i mn mx h
    simp only [drawLoop] at h
    split at h
    · exact ih (i₀ + 1) i mn mx h
    · split at h
      · simp at h
      · split at h
        · exact ih (i₀ + 1) i mn mx h
        · split at h
          · rcases List.mem_cons.1 h with heq | hmem
            · rename_i mm hbv
              obtain ⟨rfl, rfl, rfl⟩ : i = i₀ ∧ mn = mm.1 ∧ mx = mm.2 := by
                simpa [Prod.ext_iff] using heq
              simpa using hbv
            · exact ih (i₀ + 1) i mn mx hmem
          · exact ih (i₀ + 1) i mn mx h

/-- C4: the min/max amplitude pair rasterised for a waveform bucket depends
only on the bucket index, the zoom level and the sample buffer — not on the
viewport's centre time: any two renderings at the same zoom assign identical
min/max values to every bucket index they both draw (anti-jitter). -/
theorem waveform_bucket_values (data : List ℚ) (sampleRate : ℕ)
    (zoom c₁ c₂ w₁ w₂ : ℚ) (i : ℤ) (m₁ M₁ m₂ M₂ : ℚ)
    (h₁ : (i, m₁, M₁) ∈ drawBuckets data sampleRate zoom c₁ w₁)
    (h₂ : (i, m₂, M₂) ∈ drawBuckets data sampleRate zoom c₂ w₂) :
    m₁ = m₂ ∧ M₁ = M₂ := by
  simp only [drawBuckets] at h₁ h₂
  have e₁ := mem_drawLoop data sampleRate _ c₁ w₁ zoom _ _ i m₁ M₁ h₁
  have e₂ := mem_drawLoop data sampleRate _ c₂ w₂ zoom _ _ i m₂ M₂ h₂
  rw [e₁] at e₂
  have := Option.some.inj e₂
  exact ⟨congrArg Prod.fst this, congrArg Prod.snd this⟩

/-- Witness for `waveform_bucket_values`: a three-sample buffer at `zoom = 1`,
rendered at centre times `1` and `3/2`; bucket `0` appears in both renderings
with the same min/max pair `(1/2, 1/2)`. -/
theorem waveform_bucket_values_witness :
    ((0 : ℤ), (1/2 : ℚ), (1/2 : ℚ)) ∈ drawBuckets [1/2, -1/2, 1/2] 1 1 1 2 ∧
    ((0 : ℤ), (1/2 : ℚ), (1/2 : ℚ)) ∈ drawBuckets [1/2, -1/2, 1/2] 1 1 (3/2) 2 ∧
    (1/2 : ℚ) = 1/2 ∧ (1/2 : ℚ) = 1/2 :=
  ⟨by with_unfolding_all decide, by with_unfolding_all decide,
    waveform_bucket_values [1/2, -1/2, 1/2] 1 1 1 (3/2) 2 2 0 (1/2) (1/2) (1/2) (1/2)
      (by with_unfolding_all decide) (by with_unfolding_all decide)⟩

end AVSub
